import Mathlib

/-!
Verification of the DiscoveryGateway routing layer
(go/vt/vtgate/discoverygateway.go).

The Go code is shallowly embedded: tablet data, targets and errors become
inductive types; the external collaborators of `withRetry` (the tablet stats
cache, the health-check connection table, the failover buffer and the action
closure) become explicit function-valued fields of an environment record;
`rand.Intn n` becomes an arbitrary choice stream reduced modulo `n`, so that
quantifying over the streams quantifies over every possible random outcome.
Loops are written as structural recursions (a fuel argument replaces the
source's unbounded `for {}` loop; the fuel is proved sufficient).
-/

/-! ## Data model -/

/-- Tablet roles, from proto/topodata. `MASTER` is the primary role. -/
inductive TabletType where
  | UNKNOWN
  | MASTER
  | REPLICA
  | RDONLY
  | SPARE
deriving DecidableEq, Repr

/-- The routing key `(keyspace, shard, tablet type)`, from proto/query. -/
structure Target where
  keyspace : String
  shard : String
  tabletType : TabletType
deriving DecidableEq, Repr

/-- The fields of `discovery.LegacyTabletStats` that `withRetry` and
`shuffleTablets` read: `Key`, `Tablet.Alias.Cell` and `Target`. -/
structure LegacyTabletStats where
  key : String
  cell : String
  target : Target
deriving DecidableEq, Repr

/-- gRPC-style error codes from proto/vtrpc (only the ones this file needs). -/
inductive Code where
  | FAILED_PRECONDITION
  | UNAVAILABLE
  | INTERNAL
  | RESOURCE_EXHAUSTED
deriving DecidableEq, Repr

/-- Errors: a plain vterrors error (code plus message, format arguments
elided), or an error wrapped with target metadata by `NewShardError`. -/
inductive Err where
  | vtError (code : Code) (msg : String)
  | shardError (target : Target) (inner : Err)
deriving DecidableEq, Repr

/-- `vterrors.Code`: the code of an error; a shard wrapper keeps the
wrapped error's code. -/
def Err.code : Err → Code
  | .vtError c _ => c
  | .shardError _ e => e.code

/-- Modelled from the spec: `NewShardError` (defined outside the provided
sources) wraps a non-nil error with the target metadata (keyspace, shard,
role) before it is returned; a nil error stays nil ("Wrap the final error
with target metadata before returning"). -/
def NewShardError (err : Option Err) (target : Target) : Option Err :=
  match err with
  | none => none
  | some e => some (.shardError target e)

/-! ## shuffleTablets

The tablet slice is modelled as a function `Fin n → LegacyTabletStats`;
an in-place swap becomes composition with `Equiv.swap`, so the final
array is the original composed with a permutation by construction. -/

/-- `tablets[offset].Tablet.Alias.Cell == cell`. -/
def sameOf (cell : String) (x : LegacyTabletStats) : Bool := x.cell == cell

/-- Swap the entries at positions `i` and `j`; out-of-range indices leave
the array unchanged (the source only swaps in-range indices). -/
def swapF {α : Type} {n : Nat} (t : Fin n → α) (i j : Nat) : Fin n → α :=
  if h : i < n ∧ j < n then t ∘ Equiv.swap ⟨i, h.1⟩ ⟨j, h.2⟩ else t

/-- `nextTablet`, fuelled: scan from `offset` for the first position whose
cell-equality flag equals `sameCell`. The fuel is `n - offset` at the top
call, enough to scan to the end of the slice. -/
def nextTabletAux {n : Nat} (cell : String) (t : Fin n → LegacyTabletStats)
    (sameCell : Bool) : Nat → Nat → Option Nat
  | _, 0 => none
  | offset, fuel+1 =>
    if h : offset < n then
      if sameOf cell (t ⟨offset, h⟩) == sameCell then some offset
      else nextTabletAux cell t sameCell (offset+1) fuel
    else none

/-- `nextTablet(cell, tablets, offset, length, sameCell)`: Go returns `-1`
when no matching position exists; we return `none`. -/
def nextTablet {n : Nat} (cell : String) (t : Fin n → LegacyTabletStats)
    (offset : Nat) (sameCell : Bool) : Option Nat :=
  nextTabletAux cell t sameCell offset (n - offset)

/-- The partition loop of `shuffleTablets` (the `for {}` loop): move all
same-cell tablets to the front. Returns the rearranged array and
`sameCellMax` (an `Int`, `-1` meaning an empty same-cell region, exactly as
in the source). The source loop has no explicit bound; `fuel` is an upper
bound on its iteration count, proved sufficient below. On break the loop
returns the `sameCellMax` computed at the top of the breaking iteration,
which is `diffCell - 1` for the entry value of `diffCell`. -/
def partLoopF {n : Nat} (cell : String) :
    Nat → (Fin n → LegacyTabletStats) → Nat → Nat →
    (Fin n → LegacyTabletStats) × Int
  | 0, t, _, diffCell => (t, (diffCell : Int) - 1)
  | fuel+1, t, sameCell, diffCell =>
    match nextTablet cell t sameCell true, nextTablet cell t diffCell false with
    | some sc, some dc =>
      if sc < dc then
        -- fast forward the sameCell lookup to diffCell + 1
        partLoopF cell fuel t (dc+1) dc
      else
        -- sameCell > diffCell, swap needed
        partLoopF cell fuel (swapF t sc dc) (sc+1) (dc+1)
    | _, _ => (t, (diffCell : Int) - 1)

/-- The same-cell shuffle `for i := sameCellMax; i > 0; i--` with
`swap := rand.Intn(i+1)`. Structural argument `i` is the loop variable;
`r1 i % (i+1)` models `rand.Intn(i+1)`, the choice stream indexed by the
loop variable. -/
def sShuf {n : Nat} (r1 : Nat → Nat) :
    Nat → (Fin n → LegacyTabletStats) → Fin n → LegacyTabletStats
  | 0, t => t
  | i+1, t => sShuf r1 i (swapF t (i+1) (r1 (i+1) % (i+2)))

/-- The different-cell shuffle
`for i, diffCellMin := length-1, sameCellMax+1; i > diffCellMin; i--` with
`swap := rand.Intn(i-sameCellMax) + diffCellMin`. `dMin` is `diffCellMin`
(a natural number: `sameCellMax ≥ -1` always); the structural argument `k`
counts the remaining iterations, the loop variable being `i = dMin + k`.
At `i = dMin + k + 1` the bound is `i - sameCellMax = k + 2`. -/
def dShuf {n : Nat} (r2 : Nat → Nat) (dMin : Nat) :
    Nat → (Fin n → LegacyTabletStats) → Fin n → LegacyTabletStats
  | 0, t => t
  | k+1, t => dShuf r2 dMin k (swapF t (dMin+k+1) (r2 (dMin+k+1) % (k+2) + dMin))

/-- `shuffleTablets(cell, tablets)`: partition same-cell tablets to the
front, then independently shuffle the same-cell region `[0, sameCellMax]`
and the remaining region `[sameCellMax+1, length-1]`. The partition fuel
`2*n+1` exceeds the loop's maximum iteration count (proved sufficient in
`partLoopF_post`). -/
def shuffleTablets {n : Nat} (cell : String) (r1 r2 : Nat → Nat)
    (t : Fin n → LegacyTabletStats) : Fin n → LegacyTabletStats :=
  let p := partLoopF cell (2*n+1) t 0 0
  dShuf r2 ((p.2+1).toNat) (n - 1 - (p.2+1).toNat) (sShuf r1 p.2.toNat p.1)

/-- `shuffleTablets` on a list (the slice handed over by `withRetry`). -/
def shuffleList (cell : String) (r1 r2 : Nat → Nat)
    (l : List LegacyTabletStats) : List LegacyTabletStats :=
  List.ofFn (fun j : Fin l.length => shuffleTablets cell r1 r2 l.get j)

/-! ## withRetry

The gateway state and external collaborators of `withRetry` are gathered
in an environment record. Stateful collaborators whose replies may differ
from call to call (the buffer, the action) take an explicit call counter,
standing for the hidden state they consult in the source. The fields
`innerCalls`, `innerKeys`, `cacheCalls` and `bufferTrace` of the result are
instrumentation absent from the source: they record the observable
interactions (action invocations, stats-cache lookups, buffer waits) that
the claims quantify over. -/

/-- Message of the FAILED_PRECONDITION error for a disallowed tablet type
(format arguments elided). -/
def allowedTypesMsg : String :=
  "requested tablet type is not part of the allowed tablet types for this vtgate"

/-- Message of the error built when `WaitForFailoverEnd` fails. -/
def bufferFailMsg : String :=
  "failed to automatically buffer and retry failed request during failover"

/-- Message of the UNAVAILABLE error for an empty healthy-tablet snapshot. -/
def noHealthyMsg : String := "no healthy tablet available for target"

/-- Message of the UNAVAILABLE error when every tablet was already tried. -/
def noAvailMsg : String := "no available connection"

/-- Message of the UNAVAILABLE error for a missing connection. -/
def noConnMsg : String := "no connection for key"

/-- Record of one `WaitForFailoverEnd` call: the value of `bufferedOnce`
when the call was made, and whether a non-nil `retryDone` handle came back
(i.e. the request was buffered and released). -/
structure BufCall where
  bufferedOnceAt : Bool
  retryDone : Bool
deriving DecidableEq, Repr

/-- The environment of one `withRetry` call: gateway configuration and its
external collaborators as functions.
* `getHealthy` — `dg.tsc.GetHealthyTabletStats(keyspace, shard, tabletType)`.
* `getConnection` — `dg.hc.GetConnection(key)`; the connection handle is
  modelled as an opaque string.
* `buffer` — `dg.buffer.WaitForFailoverEnd(ctx, keyspace, shard, err)`,
  returning (retryDone non-nil?, buffering error); the last argument is the
  number of buffer calls already made in this `withRetry` call, standing for
  the buffer's hidden state.
* `inner` — the action, given the attempt index, the selected tablet's
  target and its connection; returns (canRetry, error).
* `rand1 i`, `rand2 i` — the random streams consumed by the two shuffle
  loops on attempt `i`. -/
structure Env where
  allowedTabletTypes : List TabletType
  retryCount : Nat
  routeReplicaToRdonly : Bool
  localCell : String
  getHealthy : String → String → TabletType → List LegacyTabletStats
  getConnection : String → Option String
  buffer : String → String → Option Err → Nat → Bool × Option Err
  inner : Nat → Target → String → Bool × Option Err
  rand1 : Nat → Nat → Nat
  rand2 : Nat → Nat → Nat

/-- The mutable locals of the retry loop (`err`, `invalidTablets`,
`bufferedOnce`) plus the instrumentation fields. -/
structure LoopState where
  err : Option Err
  invalid : List String
  bufferedOnce : Bool
  innerCalls : Nat
  innerKeys : List String
  cacheCalls : Nat
  bufferTrace : List BufCall
deriving DecidableEq, Repr

/-- The initial loop state. -/
def initState : LoopState := ⟨none, [], false, 0, [], 0, []⟩

/-- Outcome of one loop iteration: `break` or `continue` with the new
state. -/
inductive StepOut where
  | brk (st : LoopState)
  | cont (st : LoopState)
deriving DecidableEq, Repr

/-- The state carried by a step outcome. -/
def StepOut.state : StepOut → LoopState
  | .brk st => st
  | .cont st => st

/-- The candidate snapshot of one attempt: the healthy tablets for the
target, unioned with the healthy RDONLY tablets when the
`gateway_route_replica_to_rdonly` flag is set and the target type is
REPLICA. -/
def candidateTablets (env : Env) (target : Target) : List LegacyTabletStats :=
  let tablets := env.getHealthy target.keyspace target.shard target.tabletType
  if env.routeReplicaToRdonly && (target.tabletType == .REPLICA) then
    tablets ++ env.getHealthy target.keyspace target.shard .RDONLY
  else tablets

/-- Number of `GetHealthyTabletStats` lookups one attempt makes. -/
def cacheLookups (env : Env) (target : Target) : Nat :=
  if env.routeReplicaToRdonly && (target.tabletType == .REPLICA) then 2 else 1

/-- The buffering block of one loop iteration (source lines 266-290):
buffer MASTER queries during a failover; only once, only outside a
transaction. -/
def bufferStep (env : Env) (target : Target) (inTransaction : Bool)
    (st : LoopState) : StepOut :=
  if !st.bufferedOnce && !inTransaction && (target.tabletType == .MASTER) then
    let res := env.buffer target.keyspace target.shard st.err st.bufferTrace.length
    let retryDone := res.2.isNone && res.1
    let st := { st with
      bufferTrace := st.bufferTrace ++ [BufCall.mk st.bufferedOnce retryDone] }
    match res.2 with
    | some be =>
      -- buffering failed (e.g. buffer full): do not retry
      .brk { st with err := some (.vtError be.code bufferFailMsg) }
    | none =>
      -- if a retryDone handle came back the request was buffered
      .cont { st with bufferedOnce := st.bufferedOnce || retryDone }
  else .cont st

/-- The selection-and-execution block of one loop iteration (source lines
292-339), on attempt `i`: snapshot the candidates, fail fast when empty,
shuffle with cell affinity, pick the first tablet not yet tried, obtain its
connection and invoke the action. -/
def selectStep (env : Env) (target : Target) (i : Nat) (st : LoopState) :
    StepOut :=
  let tablets := candidateTablets env target
  let st := { st with cacheCalls := st.cacheCalls + cacheLookups env target }
  if tablets.isEmpty then
    -- fail fast if there is no tablet
    .brk { st with err := some (.vtError .UNAVAILABLE noHealthyMsg) }
  else
    let tablets := shuffleList env.localCell (env.rand1 i) (env.rand2 i) tablets
    -- skip tablets we tried before
    match tablets.find? (fun x => !(st.invalid.contains x.key)) with
    | none =>
      .brk { st with err :=
        match st.err with
        -- do not override error from last attempt
        | none => some (.vtError .UNAVAILABLE noAvailMsg)
        | some e => some e }
    | some ts =>
      match env.getConnection ts.key with
      | none =>
        .cont { st with err := some (.vtError .UNAVAILABLE noConnMsg),
                        invalid := st.invalid ++ [ts.key] }
      | some conn =>
        let r := env.inner i ts.target conn
        let st := { st with err := r.2, innerCalls := st.innerCalls + 1,
                            innerKeys := st.innerKeys ++ [ts.key] }
        if r.1 then .cont { st with invalid := st.invalid ++ [ts.key] }
        else .brk st

/-- One iteration of the `withRetry` loop (source lines 266-339), on
attempt `i` with state `st`. -/
def withRetryStep (env : Env) (target : Target) (inTransaction : Bool)
    (i : Nat) (st : LoopState) : StepOut :=
  match bufferStep env target inTransaction st with
  | .brk st => .brk st
  | .cont st => selectStep env target i st

/-- The retry loop `for i := 0; i < dg.retryCount+1; i++`: `i` is the
attempt index, `left` the number of iterations remaining. -/
def withRetryLoop (env : Env) (target : Target) (inTransaction : Bool) :
    Nat → Nat → LoopState → LoopState
  | _, 0, st => st
  | i, left+1, st =>
    match withRetryStep env target inTransaction i st with
    | .brk st => st
    | .cont st => withRetryLoop env target inTransaction (i+1) left st

/-- The observable result of a `withRetry` call: the returned error and the
instrumentation counters. -/
structure WRResult where
  result : Option Err
  innerCalls : Nat
  innerKeys : List String
  cacheCalls : Nat
  bufferTrace : List BufCall
deriving DecidableEq, Repr

/-- `withRetry(ctx, target, …, inTransaction, inner)`: the allowed-types
check, then the retry loop, then `NewShardError` on the final error. -/
def withRetry (env : Env) (target : Target) (inTransaction : Bool) : WRResult :=
  if !env.allowedTabletTypes.isEmpty
      && !(env.allowedTabletTypes.contains target.tabletType) then
    ⟨some (.vtError .FAILED_PRECONDITION allowedTypesMsg), 0, [], 0, []⟩
  else
    let st := withRetryLoop env target inTransaction 0 (env.retryCount + 1) initState
    ⟨NewShardError st.err target, st.innerCalls, st.innerKeys, st.cacheCalls,
     st.bufferTrace⟩

/-! ## StatsUpdate, WaitForTablets, NewDiscoveryGateway -/

/-- The listener targets of `StatsUpdate`, modelled as the sequences of
updates each component has received. -/
structure GatewayListeners where
  tscUpdates : List LegacyTabletStats
  bufferUpdates : List LegacyTabletStats
deriving DecidableEq, Repr

/-- `StatsUpdate(ts)`: forward every update to the tablet stats cache, and
to the failover buffer only when the update's target type is MASTER. -/
def StatsUpdate (g : GatewayListeners) (ts : LegacyTabletStats) : GatewayListeners :=
  let g := { g with tscUpdates := g.tscUpdates ++ [ts] }
  if ts.target.tabletType == .MASTER then
    { g with bufferUpdates := g.bufferUpdates ++ [ts] }
  else g

/-- Environment of `WaitForTablets`: the topo lookup
(`srvtopo.FindAllTargets`) and the stats-cache wait
(`tsc.WaitForAllServingTablets`), both external to the source file. -/
structure WFTEnv where
  findAllTargets : List TabletType → Except Err (List Target)
  keyspacesToWatch : List String
  waitForAllServing : List Target → Option Err

/-- Observable result of `WaitForTablets`: the returned error plus counts
of topo queries and stats-cache waits. -/
structure WFTResult where
  result : Option Err
  topoCalls : Nat
  waitCalls : Nat
deriving DecidableEq, Repr

/-- Modelled from the spec: `discovery.FilterTargetsByKeyspaces` (defined
outside the provided sources) narrows targets to the keyspace allow-list;
an empty allow-list keeps every target ("a keyspace allow-list … narrow the
accepted set"). -/
def FilterTargetsByKeyspaces (keyspaces : List String) (targets : List Target) :
    List Target :=
  if keyspaces.isEmpty then targets
  else targets.filter (fun t => keyspaces.contains t.keyspace)

/-- `WaitForTablets(ctx, tabletTypesToWait)`: skip waiting entirely when no
tablet types are given; otherwise find all targets, filter them by the
keyspace allow-list and wait for them all to be serving. -/
def WaitForTablets (env : WFTEnv) (tabletTypesToWait : List TabletType) : WFTResult :=
  if tabletTypesToWait.isEmpty then ⟨none, 0, 0⟩
  else
    match env.findAllTargets tabletTypesToWait with
    | .error e => ⟨some e, 1, 0⟩
    | .ok targets =>
      let filtered := FilterTargetsByKeyspaces env.keyspacesToWatch targets
      ⟨env.waitForAllServing filtered, 1, 1⟩

/-- Outcome of constructing the gateway: `log.Exitf` (fatal) or a gateway. -/
inductive GatewayOutcome where
  | fatal (msg : String)
  | ok
deriving DecidableEq, Repr

/-- The fatal message for mutually exclusive filter options. -/
def bothFiltersMsg : String :=
  "Only one of -keyspaces_to_watch and -tablet_filters may be specified at a time"

/-- The per-cell loop of `NewDiscoveryGateway`: empty cell names are
skipped; in each remaining cell, if `tablet_filters` is non-empty it is
fatal for `keyspaces_to_watch` to be non-empty too, and fatal for the
filters not to parse (`filterParseOk` abstracts
`NewLegacyFilterByShard`'s parse, defined outside the provided sources). -/
def watchCells (tabletFilters keyspacesToWatch : List String)
    (filterParseOk : Bool) : List String → GatewayOutcome
  | [] => .ok
  | c :: rest =>
    if c = "" then watchCells tabletFilters keyspacesToWatch filterParseOk rest
    else if !tabletFilters.isEmpty then
      if !keyspacesToWatch.isEmpty then .fatal bothFiltersMsg
      else if !filterParseOk then .fatal "Cannot parse tablet_filters parameter"
      else watchCells tabletFilters keyspacesToWatch filterParseOk rest
    else watchCells tabletFilters keyspacesToWatch filterParseOk rest

/-- `NewDiscoveryGateway`: fatal when the topo server cannot be obtained,
then the per-cell watcher loop. `cellsToWatch` is the list produced by
`strings.Split(*CellsToWatch, ",")` (so the empty flag value corresponds
to `[""]`); `discovery.FilteringKeyspaces()` is
`len(KeyspacesToWatch) > 0`. -/
def NewDiscoveryGateway (topoOk : Bool) (cellsToWatch : List String)
    (tabletFilters keyspacesToWatch : List String) (filterParseOk : Bool) :
    GatewayOutcome :=
  if !topoOk then .fatal "Unable to create new discoverygateway"
  else watchCells tabletFilters keyspacesToWatch filterParseOk cellsToWatch

/-! ## Proof-support definitions and concrete scenario environments -/

/-- Invariant of the partition loop: positions before `diffCell` hold
same-cell tablets, positions in `[diffCell, sameCell)` hold different-cell
tablets. -/
def PartInv {n : Nat} (cell : String) (t : Fin n → LegacyTabletStats)
    (sameCell diffCell : Nat) : Prop :=
  diffCell ≤ sameCell ∧
  (∀ j (hj : j < n), j < diffCell → sameOf cell (t ⟨j, hj⟩) = true) ∧
  (∀ j (hj : j < n), diffCell ≤ j → j < sameCell → sameOf cell (t ⟨j, hj⟩) = false)

/-- Invariant of the buffer bookkeeping in the retry loop: every buffer
call so far was made with `bufferedOnce = false`; while `bufferedOnce` is
still false no call has returned a retryDone handle; and only the latest
call can have returned one. -/
def BufInv (st : LoopState) : Prop :=
  (∀ e ∈ st.bufferTrace, e.bufferedOnceAt = false) ∧
  (st.bufferedOnce = false → ∀ e ∈ st.bufferTrace, e.retryDone = false) ∧
  (∀ e ∈ st.bufferTrace.dropLast, e.retryDone = false)

/-- A tablet stats entry for the concrete scenarios. -/
def mkT (k c : String) (tt : TabletType) : LegacyTabletStats :=
  ⟨k, c, ⟨"ks", "0", tt⟩⟩

/-- MASTER target of the concrete scenarios. -/
def tgtM : Target := ⟨"ks", "0", .MASTER⟩

/-- REPLICA target of the concrete scenarios. -/
def tgtR : Target := ⟨"ks", "0", .REPLICA⟩

/-- Scenario (C3): empty healthy-tablet cache and a failover buffer that
fails admission with RESOURCE_EXHAUSTED (buffer full). -/
def envBufFull : Env := {
  allowedTabletTypes := []
  retryCount := 2
  routeReplicaToRdonly := false
  localCell := "cell1"
  getHealthy := fun _ _ _ => []
  getConnection := fun k => some k
  buffer := fun _ _ _ _ => (false, some (.vtError .RESOURCE_EXHAUSTED "buffer full"))
  inner := fun _ _ _ => (false, none)
  rand1 := fun _ _ => 0
  rand2 := fun _ _ => 0 }

/-- Scenario (C4): three healthy distinct REPLICA tablets in the local
cell, connections available, and an action that reports retryable with
error `e` on every invocation; `retry_count = 2`. -/
def envRetry3 (e : Err) : Env := { envBufFull with
  getHealthy := fun _ _ tt =>
    if tt == .REPLICA then
      [mkT "a" "cell1" .REPLICA, mkT "b" "cell1" .REPLICA, mkT "d" "cell1" .REPLICA]
    else []
  buffer := fun _ _ _ _ => (false, none)
  inner := fun _ _ _ => (true, some e) }

/-- Scenario (C1 witness): as `envRetry3` but with `retry_count = 0`. -/
def envRetry0 : Env := { envRetry3 (.vtError .INTERNAL "boom") with retryCount := 0 }

/-- Scenario (C6): REPLICA-to-RDONLY routing enabled, no healthy REPLICA
tablets, two healthy RDONLY tablets, and a succeeding action. -/
def envRdonly : Env := { envBufFull with
  routeReplicaToRdonly := true
  getHealthy := fun _ _ tt =>
    if tt == .RDONLY then [mkT "r1" "cell1" .RDONLY, mkT "r2" "cell1" .RDONLY]
    else []
  buffer := fun _ _ _ _ => (false, none)
  inner := fun _ _ _ => (false, none) }

/-- Scenario (C2 witness): one healthy MASTER tablet, a buffer that admits
and releases the request (non-nil retryDone), and a succeeding action. -/
def envBufOnce : Env := { envBufFull with
  getHealthy := fun _ _ tt =>
    if tt == .MASTER then [mkT "m1" "cell1" .MASTER] else []
  buffer := fun _ _ _ _ => (true, none)
  inner := fun _ _ _ => (false, none) }

/-- Scenario (C7 witness): only MASTER is in the allowed tablet types. -/
def envAllowedM : Env := { envBufFull with allowedTabletTypes := [.MASTER] }

/-- Scenario (C5 witness): two same-cell tablets. -/
def twoSameCell : Fin 2 → LegacyTabletStats :=
  ![mkT "a" "c" .REPLICA, mkT "b" "c" .REPLICA]

/-! ## Lemmas about swaps and scans -/

/-- `swapF` is composition with a permutation of positions. -/
theorem swapF_perm {α : Type} {n : Nat} (t : Fin n → α) (i j : Nat) :
    ∃ σ : Equiv.Perm (Fin n), ∀ k, swapF t i j k = t (σ k) := by
  unfold swapF
  split
  · next h => exact ⟨Equiv.swap ⟨i, h.1⟩ ⟨j, h.2⟩, fun k => rfl⟩
  · exact ⟨Equiv.refl _, fun k => rfl⟩

/-- Value at the left swapped position. -/
theorem swapF_left {α : Type} {n : Nat} (t : Fin n → α) {i j : Nat}
    (hi : i < n) (hj : j < n) : swapF t i j ⟨i, hi⟩ = t ⟨j, hj⟩ := by
  unfold swapF
  rw [dif_pos ⟨hi, hj⟩]
  simp [Equiv.swap_apply_left]

/-- Value at the right swapped position. -/
theorem swapF_right {α : Type} {n : Nat} (t : Fin n → α) {i j : Nat}
    (hi : i < n) (hj : j < n) : swapF t i j ⟨j, hj⟩ = t ⟨i, hi⟩ := by
  unfold swapF
  rw [dif_pos ⟨hi, hj⟩]
  simp [Equiv.swap_apply_right]

/-- Positions other than the two swapped ones keep their value. -/
theorem swapF_other {α : Type} {n : Nat} (t : Fin n → α) {i j : Nat}
    (k : Fin n) (h1 : k.val ≠ i) (h2 : k.val ≠ j) : swapF t i j k = t k := by
  unfold swapF
  split
  · next h =>
    show t (Equiv.swap ⟨i, h.1⟩ ⟨j, h.2⟩ k) = t k
    rw [Equiv.swap_apply_of_ne_of_ne]
    · intro he; exact h1 (by rw [he])
    · intro he; exact h2 (by rw [he])
  · rfl

/-- A swap whose two positions lie on the same side of a region `R`
preserves a pointwise property `P` over `R`. -/
theorem swapF_pres {α : Type} {n : Nat} (P : α → Prop) (R : Nat → Prop)
    (t : Fin n → α) (i j : Nat) (hij : R i ↔ R j)
    (h : ∀ k : Fin n, R k.val → P (t k)) :
    ∀ k : Fin n, R k.val → P (swapF t i j k) := by
  intro k hk
  by_cases hin : i < n ∧ j < n
  · by_cases hki : k.val = i
    · have : k = ⟨i, hin.1⟩ := Fin.ext hki
      subst this
      rw [swapF_left t hin.1 hin.2]
      exact h _ (hij.mp hk)
    · by_cases hkj : k.val = j
      · have : k = ⟨j, hin.2⟩ := Fin.ext hkj
        subst this
        rw [swapF_right t hin.1 hin.2]
        exact h _ (hij.mpr hk)
      · rw [swapF_other t k hki hkj]
        exact h k hk
  · unfold swapF
    rw [dif_neg hin]
    exact h k hk

/-- If `nextTabletAux` finds a position, it is the first matching position
at or after `offset`. -/
theorem nextTabletAux_some {n : Nat} {cell : String}
    {t : Fin n → LegacyTabletStats} {sc : Bool} :
    ∀ fuel offset k, nextTabletAux cell t sc offset fuel = some k →
    offset ≤ k ∧ ∃ hk : k < n, sameOf cell (t ⟨k, hk⟩) = sc ∧
      ∀ j (hj : j < n), offset ≤ j → j < k → sameOf cell (t ⟨j, hj⟩) = !sc := by
  intro fuel
  induction fuel with
  | zero => intro offset k h; simp [nextTabletAux] at h
  | succ fuel ih =>
    intro offset k h
    unfold nextTabletAux at h
    split at h
    · next hlt =>
      split at h
      · next heq =>
        cases h
        refine ⟨le_refl _, hlt, ?_, ?_⟩
        · revert heq
          cases sameOf cell (t ⟨offset, hlt⟩) <;> cases sc <;> simp
        · intro j hj h1 h2; omega
      · next hne =>
        obtain ⟨h1, hk, h2, h3⟩ := ih (offset+1) k h
        refine ⟨by omega, hk, h2, ?_⟩
        intro j hj hj1 hj2
        rcases Nat.eq_or_lt_of_le hj1 with he | hlt2
        · have : (⟨j, hj⟩ : Fin n) = ⟨offset, hlt⟩ := Fin.ext he.symm
          rw [this]
          revert hne
          cases sameOf cell (t ⟨offset, hlt⟩) <;> cases sc <;> simp
        · exact h3 j hj hlt2 hj2
    · cases h

/-- If `nextTabletAux` finds nothing and the fuel reaches the end of the
array, no position at or after `offset` matches. -/
theorem nextTabletAux_none {n : Nat} {cell : String}
    {t : Fin n → LegacyTabletStats} {sc : Bool} :
    ∀ fuel offset, n ≤ offset + fuel →
    nextTabletAux cell t sc offset fuel = none →
    ∀ j (hj : j < n), offset ≤ j → sameOf cell (t ⟨j, hj⟩) = !sc := by
  intro fuel
  induction fuel with
  | zero => intro offset hn _ j hj h1; omega
  | succ fuel ih =>
    intro offset hn h j hj h1
    unfold nextTabletAux at h
    split at h
    · next hlt =>
      split at h
      · cases h
      · next hne =>
        rcases Nat.eq_or_lt_of_le h1 with he | hlt2
        · have : (⟨j, hj⟩ : Fin n) = ⟨offset, hlt⟩ := Fin.ext he.symm
          rw [this]
          revert hne
          cases sameOf cell (t ⟨offset, hlt⟩) <;> cases sc <;> simp
        · exact ih (offset+1) (by omega) h j hj hlt2
    · next hge => omega

/-- First-match characterization for `nextTablet` returning a position. -/
theorem nextTablet_some {n : Nat} {cell : String}
    {t : Fin n → LegacyTabletStats} {offset : Nat} {sc : Bool} {k : Nat}
    (h : nextTablet cell t offset sc = some k) :
    offset ≤ k ∧ ∃ hk : k < n, sameOf cell (t ⟨k, hk⟩) = sc ∧
      ∀ j (hj : j < n), offset ≤ j → j < k → sameOf cell (t ⟨j, hj⟩) = !sc :=
  nextTabletAux_some (n - offset) offset k h

/-- No-match characterization for `nextTablet` returning nothing. -/
theorem nextTablet_none {n : Nat} {cell : String}
    {t : Fin n → LegacyTabletStats} {offset : Nat} {sc : Bool}
    (h : nextTablet cell t offset sc = none) :
    ∀ j (hj : j < n), offset ≤ j → sameOf cell (t ⟨j, hj⟩) = !sc :=
  nextTabletAux_none (n - offset) offset (by omega) h

/-! ## Lemmas about the partition loop -/

/-- The partition loop is composition with a permutation of positions. -/
theorem partLoopF_perm {n : Nat} (cell : String) :
    ∀ fuel (t : Fin n → LegacyTabletStats) sameCell diffCell,
    ∃ σ : Equiv.Perm (Fin n),
      ∀ j, (partLoopF cell fuel t sameCell diffCell).1 j = t (σ j) := by
  intro fuel
  induction fuel with
  | zero => intro t s d; exact ⟨Equiv.refl _, fun j => rfl⟩
  | succ fuel ih =>
    intro t s d
    unfold partLoopF
    cases hsc : nextTablet cell t s true with
    | none =>
      cases hdc : nextTablet cell t d false with
      | none => exact ⟨Equiv.refl _, fun j => rfl⟩
      | some dc => exact ⟨Equiv.refl _, fun j => rfl⟩
    | some sc =>
      cases hdc : nextTablet cell t d false with
      | none => exact ⟨Equiv.refl _, fun j => rfl⟩
      | some dc =>
        by_cases hlt : sc < dc
        · obtain ⟨σ, hσ⟩ := ih t (dc+1) dc
          refine ⟨σ, fun j => ?_⟩
          show (if sc < dc then partLoopF cell fuel t (dc+1) dc
            else partLoopF cell fuel (swapF t sc dc) (sc+1) (dc+1)).1 j = t (σ j)
          rw [if_pos hlt]
          exact hσ j
        · obtain ⟨σ, hσ⟩ := ih (swapF t sc dc) (sc+1) (dc+1)
          obtain ⟨τ, hτ⟩ := swapF_perm t sc dc
          refine ⟨σ.trans τ, fun j => ?_⟩
          show (if sc < dc then partLoopF cell fuel t (dc+1) dc
            else partLoopF cell fuel (swapF t sc dc) (sc+1) (dc+1)).1 j = t ((σ.trans τ) j)
          rw [if_neg hlt, hσ j, hτ (σ j), Equiv.trans_apply]

/-- Post-condition of the partition loop: under the loop invariant and
with enough fuel, the result is partitioned at `sameCellMax`: every
position at or below `sameCellMax` is same-cell, and either every position
above it is different-cell, or the whole array is same-cell. -/
theorem partLoopF_post {n : Nat} (cell : String) :
    ∀ fuel (t : Fin n → LegacyTabletStats) sameCell diffCell t' m,
    partLoopF cell fuel t sameCell diffCell = (t', m) →
    PartInv cell t sameCell diffCell →
    2*n+1 ≤ sameCell + diffCell + fuel →
    -1 ≤ m ∧
    (∀ j (hj : j < n), (j : Int) ≤ m → sameOf cell (t' ⟨j, hj⟩) = true) ∧
    ((∀ j (hj : j < n), m < (j : Int) → sameOf cell (t' ⟨j, hj⟩) = false) ∨
     (∀ j (hj : j < n), sameOf cell (t' ⟨j, hj⟩) = true)) := by
  intro fuel
  induction fuel with
  | zero =>
    intro t s d t' m h hinv hb
    obtain ⟨h1, h2, h3⟩ := hinv
    unfold partLoopF at h
    injection h with hT hM
    subst hT; subst hM
    refine ⟨by omega, ?_, Or.inl ?_⟩
    · intro j hj hjm
      exact h2 j hj (by omega)
    · intro j hj hjm
      exact h3 j hj (by omega) (by omega)
  | succ fuel ih =>
    intro t s d t' m h hinv hb
    obtain ⟨h1, h2, h3⟩ := hinv
    unfold partLoopF at h
    cases hsc : nextTablet cell t s true with
    | none =>
      have hall := nextTablet_none hsc
      cases hdc : nextTablet cell t d false with
      | none =>
        simp only [hsc, hdc] at h
        injection h with hT hM
        subst hT; subst hM
        refine ⟨by omega, ?_, Or.inl ?_⟩
        · intro j hj hjm
          exact h2 j hj (by omega)
        · intro j hj hjm
          by_cases hjs : j < s
          · exact h3 j hj (by omega) hjs
          · simpa using hall j hj (by omega)
      | some dc =>
        simp only [hsc, hdc] at h
        injection h with hT hM
        subst hT; subst hM
        refine ⟨by omega, ?_, Or.inl ?_⟩
        · intro j hj hjm
          exact h2 j hj (by omega)
        · intro j hj hjm
          by_cases hjs : j < s
          · exact h3 j hj (by omega) hjs
          · simpa using hall j hj (by omega)
    | some sc =>
      obtain ⟨hs1, hscn, hscv, hscb⟩ := nextTablet_some hsc
      cases hdc : nextTablet cell t d false with
      | none =>
        have hall := nextTablet_none hdc
        simp only [hsc, hdc] at h
        injection h with hT hM
        subst hT; subst hM
        refine ⟨by omega, ?_, Or.inr ?_⟩
        · intro j hj hjm
          exact h2 j hj (by omega)
        · intro j hj
          by_cases hjd : j < d
          · exact h2 j hj hjd
          · simpa using hall j hj (by omega)
      | some dc =>
        obtain ⟨hd1, hdcn, hdcv, hdcb⟩ := nextTablet_some hdc
        simp only [hsc, hdc] at h
        by_cases hlt : sc < dc
        · rw [if_pos hlt] at h
          refine ih t (dc+1) dc t' m h ⟨by omega, ?_, ?_⟩ (by omega)
          · intro j hj hjd
            by_cases hjd2 : j < d
            · exact h2 j hj hjd2
            · simpa using hdcb j hj (by omega) hjd
          · intro j hj hj1 hj2
            have hje : j = dc := by omega
            subst hje
            exact hdcv
        · rw [if_neg hlt] at h
          refine ih (swapF t sc dc) (sc+1) (dc+1) t' m h ⟨by omega, ?_, ?_⟩ (by omega)
          · intro j hj hjd
            by_cases hje : j = dc
            · subst hje
              rw [swapF_right t hscn hdcn]
              exact hscv
            · have hj2 : j ≠ sc := by omega
              rw [swapF_other t ⟨j, hj⟩ hj2 hje]
              by_cases hjd2 : j < d
              · exact h2 j hj hjd2
              · simpa using hdcb j hj (by omega) (by omega)
          · intro j hj hj1 hj2
            by_cases hje : j = sc
            · subst hje
              rw [swapF_left t hscn hdcn]
              exact hdcv
            · have hj3 : j ≠ dc := by omega
              rw [swapF_other t ⟨j, hj⟩ hje hj3]
              by_cases hjs : j < s
              · exact h3 j hj (by omega) hjs
              · simpa using hscb j hj (by omega) (by omega)

/-! ## Lemmas about the two shuffle loops -/

/-- The same-cell shuffle is composition with a permutation of positions. -/
theorem sShuf_perm {n : Nat} (r1 : Nat → Nat) :
    ∀ i (t : Fin n → LegacyTabletStats),
    ∃ σ : Equiv.Perm (Fin n), ∀ k, sShuf r1 i t k = t (σ k) := by
  intro i
  induction i with
  | zero => intro t; exact ⟨Equiv.refl _, fun k => rfl⟩
  | succ i ih =>
    intro t
    obtain ⟨σ, hσ⟩ := ih (swapF t (i+1) (r1 (i+1) % (i+2)))
    obtain ⟨τ, hτ⟩ := swapF_perm t (i+1) (r1 (i+1) % (i+2))
    refine ⟨σ.trans τ, fun k => ?_⟩
    show sShuf r1 i (swapF t (i+1) (r1 (i+1) % (i+2))) k = t ((σ.trans τ) k)
    rw [hσ k, hτ (σ k), Equiv.trans_apply]

/-- The different-cell shuffle is composition with a permutation. -/
theorem dShuf_perm {n : Nat} (r2 : Nat → Nat) (dMin : Nat) :
    ∀ k (t : Fin n → LegacyTabletStats),
    ∃ σ : Equiv.Perm (Fin n), ∀ j, dShuf r2 dMin k t j = t (σ j) := by
  intro k
  induction k with
  | zero => intro t; exact ⟨Equiv.refl _, fun j => rfl⟩
  | succ k ih =>
    intro t
    obtain ⟨σ, hσ⟩ :=
      ih (swapF t (dMin+k+1) (r2 (dMin+k+1) % (k+2) + dMin))
    obtain ⟨τ, hτ⟩ := swapF_perm t (dMin+k+1) (r2 (dMin+k+1) % (k+2) + dMin)
    refine ⟨σ.trans τ, fun j => ?_⟩
    show dShuf r2 dMin k (swapF t (dMin+k+1) (r2 (dMin+k+1) % (k+2) + dMin)) j
      = t ((σ.trans τ) j)
    rw [hσ j, hτ (σ j), Equiv.trans_apply]

/-- The same-cell shuffle starting at `i ≤ C` only moves entries within
positions `[0, C]`: a pointwise property over that region is preserved. -/
theorem sShuf_presLe {n : Nat} (r1 : Nat → Nat) (P : LegacyTabletStats → Prop)
    (C : Nat) : ∀ i (t : Fin n → LegacyTabletStats), i ≤ C →
    (∀ k : Fin n, k.val ≤ C → P (t k)) →
    ∀ k : Fin n, k.val ≤ C → P (sShuf r1 i t k) := by
  intro i
  induction i with
  | zero => intro t _ h k hk; exact h k hk
  | succ i ih =>
    intro t hC h k hk
    refine ih (swapF t (i+1) (r1 (i+1) % (i+2))) (by omega) ?_ k hk
    refine swapF_pres P (fun x => x ≤ C) t (i+1) (r1 (i+1) % (i+2)) ?_ h
    have : r1 (i+1) % (i+2) < i+2 := Nat.mod_lt _ (by omega)
    constructor <;> intro <;> omega

/-- The same-cell shuffle preserves a pointwise property over the region
above `C`. -/
theorem sShuf_presGt {n : Nat} (r1 : Nat → Nat) (P : LegacyTabletStats → Prop)
    (C : Nat) : ∀ i (t : Fin n → LegacyTabletStats), i ≤ C →
    (∀ k : Fin n, C < k.val → P (t k)) →
    ∀ k : Fin n, C < k.val → P (sShuf r1 i t k) := by
  intro i
  induction i with
  | zero => intro t _ h k hk; exact h k hk
  | succ i ih =>
    intro t hC h k hk
    refine ih (swapF t (i+1) (r1 (i+1) % (i+2))) (by omega) ?_ k hk
    refine swapF_pres P (fun x => C < x) t (i+1) (r1 (i+1) % (i+2)) ?_ h
    have : r1 (i+1) % (i+2) < i+2 := Nat.mod_lt _ (by omega)
    constructor <;> intro <;> omega

/-- The different-cell shuffle only moves entries at positions `≥ dMin`:
a pointwise property over that region is preserved. -/
theorem dShuf_presGe {n : Nat} (r2 : Nat → Nat) (P : LegacyTabletStats → Prop)
    (dMin : Nat) : ∀ k (t : Fin n → LegacyTabletStats),
    (∀ j : Fin n, dMin ≤ j.val → P (t j)) →
    ∀ j : Fin n, dMin ≤ j.val → P (dShuf r2 dMin k t j) := by
  intro k
  induction k with
  | zero => intro t h j hj; exact h j hj
  | succ k ih =>
    intro t h j hj
    refine ih (swapF t (dMin+k+1) (r2 (dMin+k+1) % (k+2) + dMin)) ?_ j hj
    refine swapF_pres P (fun x => dMin ≤ x) t _ _ ?_ h
    constructor <;> intro <;> omega

/-- The different-cell shuffle preserves a pointwise property over the
region below `dMin`. -/
theorem dShuf_presLt {n : Nat} (r2 : Nat → Nat) (P : LegacyTabletStats → Prop)
    (dMin : Nat) : ∀ k (t : Fin n → LegacyTabletStats),
    (∀ j : Fin n, j.val < dMin → P (t j)) →
    ∀ j : Fin n, j.val < dMin → P (dShuf r2 dMin k t j) := by
  intro k
  induction k with
  | zero => intro t h j hj; exact h j hj
  | succ k ih =>
    intro t h j hj
    refine ih (swapF t (dMin+k+1) (r2 (dMin+k+1) % (k+2) + dMin)) ?_ j hj
    refine swapF_pres P (fun x => x < dMin) t _ _ ?_ h
    constructor <;> intro <;> omega

/-- `sameOf` decodes to cell equality. -/
theorem sameOf_eq_true {cell : String} {x : LegacyTabletStats} :
    sameOf cell x = true ↔ x.cell = cell := by
  simp [sameOf]

/-- C5: For every input list of tablets and every local cell name,
`shuffleTablets` rearranges the list into a permutation of the input in
which every tablet whose cell equals the local cell appears before every
tablet whose cell differs (same-cell region first, different-cell region
after), for all outcomes of the random choices (all choice streams
`r1`, `r2`). -/
theorem shuffleTablets_cell_affinity {n : Nat} (cell : String)
    (r1 r2 : Nat → Nat) (t : Fin n → LegacyTabletStats) :
    (∃ σ : Equiv.Perm (Fin n), ∀ j, shuffleTablets cell r1 r2 t j = t (σ j)) ∧
    (∀ i j : Fin n, i ≤ j → (shuffleTablets cell r1 r2 t j).cell = cell →
      (shuffleTablets cell r1 r2 t i).cell = cell) := by
  rcases hp : partLoopF cell (2*n+1) t 0 0 with ⟨t1, m⟩
  have hst : shuffleTablets cell r1 r2 t
      = dShuf r2 ((m+1).toNat) (n - 1 - (m+1).toNat) (sShuf r1 m.toNat t1) := by
    simp only [shuffleTablets]
    rw [hp]
  have hinv : PartInv cell t 0 0 :=
    ⟨le_refl 0, fun j hj h => absurd h (by omega),
      fun j hj h1 h2 => absurd h2 (by omega)⟩
  obtain ⟨hm1, hpre, hdis⟩ :=
    partLoopF_post cell (2*n+1) t 0 0 t1 m hp hinv (by omega)
  obtain ⟨σ1, hσ1⟩ := partLoopF_perm cell (2*n+1) t 0 0
  simp only [hp] at hσ1
  obtain ⟨σ2, hσ2⟩ := sShuf_perm r1 m.toNat t1
  obtain ⟨σ3, hσ3⟩ :=
    dShuf_perm r2 ((m+1).toNat) (n - 1 - (m+1).toNat) (sShuf r1 m.toNat t1)
  constructor
  · refine ⟨(σ3.trans σ2).trans σ1, fun j => ?_⟩
    rw [hst, hσ3 j, hσ2 (σ3 j), hσ1 (σ2 (σ3 j))]
    rfl
  · intro i j hij hcell
    rw [hst] at hcell
    rw [hst]
    have hij2 : i.val ≤ j.val := hij
    rcases hdis with hdiff | hall
    · by_cases hm : m < 0
      · -- empty same-cell region: every entry is different-cell
        have hall1 : ∀ k : Fin n, sameOf cell (t1 k) = false := fun k =>
          hdiff k.val k.isLt (by omega)
        have hall2 : ∀ k : Fin n, sameOf cell (sShuf r1 m.toNat t1 k) = false :=
          fun k => by rw [hσ2 k]; exact hall1 (σ2 k)
        have hall3 : sameOf cell
            (dShuf r2 ((m+1).toNat) (n - 1 - (m+1).toNat)
              (sShuf r1 m.toNat t1) j) = false := by
          rw [hσ3 j]; exact hall2 (σ3 j)
        have hj1 : sameOf cell
            (dShuf r2 ((m+1).toNat) (n - 1 - (m+1).toNat)
              (sShuf r1 m.toNat t1) j) = true := sameOf_eq_true.mpr hcell
        rw [hall3] at hj1
        cases hj1
      · -- same-cell region [0, m], different-cell region (m, n)
        have hMm : ((m.toNat : Nat) : Int) = m := Int.toNat_of_nonneg (by omega)
        have hB : (m+1).toNat = m.toNat + 1 := by omega
        have P1 : ∀ k : Fin n, k.val ≤ m.toNat → sameOf cell (t1 k) = true := by
          intro k hk
          exact hpre k.val k.isLt (by omega)
        have P2 : ∀ k : Fin n, m.toNat < k.val → sameOf cell (t1 k) = false := by
          intro k hk
          exact hdiff k.val k.isLt (by omega)
        have A1 := sShuf_presLe r1 (fun x => sameOf cell x = true) m.toNat
          m.toNat t1 (le_refl _) P1
        have A2 := sShuf_presGt r1 (fun x => sameOf cell x = false) m.toNat
          m.toNat t1 (le_refl _) P2
        rw [hB] at hcell
        rw [hB]
        have B1 := dShuf_presLt r2 (fun x => sameOf cell x = true) (m.toNat+1)
          (n - 1 - (m.toNat+1)) (sShuf r1 m.toNat t1) (fun k hk => A1 k (by omega))
        have B2 := dShuf_presGe r2 (fun x => sameOf cell x = false) (m.toNat+1)
          (n - 1 - (m.toNat+1)) (sShuf r1 m.toNat t1) (fun k hk => A2 k (by omega))
        by_cases hjM : m.toNat < j.val
        · have hf := B2 j (by omega)
          have hj1 := sameOf_eq_true.mpr hcell
          rw [hf] at hj1
          cases hj1
        · exact sameOf_eq_true.mp (B1 i (by omega))
    · -- the whole array is same-cell
      have hall2 : ∀ k : Fin n, sameOf cell (sShuf r1 m.toNat t1 k) = true :=
        fun k => by rw [hσ2 k]; exact hall (σ2 k).val (σ2 k).isLt
      refine sameOf_eq_true.mp ?_
      rw [hσ3 i]
      exact hall2 (σ3 i)

/-- Witness for `shuffleTablets_cell_affinity`: on the concrete two-tablet
array both in the local cell, the second result entry is same-cell, hence
so is the first. -/
theorem shuffleTablets_cell_affinity_witness :
    (shuffleTablets "c" (fun _ => 0) (fun _ => 0) twoSameCell 1).cell = "c" ∧
    (shuffleTablets "c" (fun _ => 0) (fun _ => 0) twoSameCell 0).cell = "c" :=
  ⟨by decide,
    (shuffleTablets_cell_affinity "c" (fun _ => 0) (fun _ => 0) twoSameCell).2 0 1
      (by decide) (by decide)⟩

/-! ## Lemmas about the retry loop -/

/-- The buffering block never touches the action or cache counters. -/
theorem bufferStep_frame (env : Env) (tgt : Target) (itx : Bool) (st : LoopState) :
    (bufferStep env tgt itx st).state.innerCalls = st.innerCalls ∧
    (bufferStep env tgt itx st).state.innerKeys = st.innerKeys ∧
    (bufferStep env tgt itx st).state.cacheCalls = st.cacheCalls := by
  by_cases hg : (!st.bufferedOnce && !itx && (tgt.tabletType == .MASTER)) = true
  · cases hb : (env.buffer tgt.keyspace tgt.shard st.err st.bufferTrace.length).2 with
    | none => simp [bufferStep, hg, hb, StepOut.state]
    | some be => simp [bufferStep, hg, hb, StepOut.state]
  · simp [bufferStep, hg, StepOut.state]

/-- The selection block never touches the buffer state and invokes the
action at most once. -/
theorem selectStep_frame (env : Env) (tgt : Target) (i : Nat) (st : LoopState) :
    (selectStep env tgt i st).state.bufferTrace = st.bufferTrace ∧
    (selectStep env tgt i st).state.bufferedOnce = st.bufferedOnce ∧
    (selectStep env tgt i st).state.innerCalls ≤ st.innerCalls + 1 := by
  by_cases he : (candidateTablets env tgt).isEmpty = true
  · simp [selectStep, he, StepOut.state]
  · cases hf : (shuffleList env.localCell (env.rand1 i) (env.rand2 i)
        (candidateTablets env tgt)).find? (fun x => !decide (x.key ∈ st.invalid)) with
    | none => simp [selectStep, he, hf, StepOut.state]
    | some ts =>
      cases hc : env.getConnection ts.key with
      | none => simp [selectStep, he, hf, hc, StepOut.state]
      | some conn =>
        by_cases hr : (env.inner i ts.target conn).1 = true
        · simp [selectStep, he, hf, hc, hr, StepOut.state]
        · simp [selectStep, he, hf, hc, hr, StepOut.state]

/-- In a transaction, or for a non-MASTER target, the buffering block is a
no-op. -/
theorem bufferStep_guard_off (env : Env) (tgt : Target) (itx : Bool)
    (st : LoopState) (h : itx = true ∨ tgt.tabletType ≠ .MASTER) :
    bufferStep env tgt itx st = .cont st := by
  rcases h with h | h
  · subst h; simp [bufferStep]
  · have h2 : (tgt.tabletType == TabletType.MASTER) = false := by
      cases htt : tgt.tabletType
      case MASTER => exact absurd htt h
      all_goals rfl
    simp [bufferStep, h2]

/-- Once `bufferedOnce` is set, the buffering block is a no-op. -/
theorem bufferStep_buffered (env : Env) (tgt : Target) (itx : Bool)
    (st : LoopState) (h : st.bufferedOnce = true) :
    bufferStep env tgt itx st = .cont st := by
  simp [bufferStep, h]

/-- The buffering block preserves the buffer bookkeeping invariant. -/
theorem bufferStep_bufInv (env : Env) (tgt : Target) (itx : Bool)
    (st : LoopState) (h : BufInv st) : BufInv (bufferStep env tgt itx st).state := by
  obtain ⟨h1, h2, h3⟩ := h
  by_cases hg : (!st.bufferedOnce && !itx && (tgt.tabletType == .MASTER)) = true
  · have hb0 : st.bufferedOnce = false := by
      revert hg; cases st.bufferedOnce <;> simp
    have hitx : itx = false := by
      revert hg; cases itx <;> simp
    have hmt : tgt.tabletType = .MASTER := by
      have h := hg
      simp only [Bool.and_eq_true] at h
      exact beq_iff_eq.mp h.2
    cases hb : (env.buffer tgt.keyspace tgt.shard st.err st.bufferTrace.length).2 with
    | none =>
      have hres : (bufferStep env tgt itx st).state =
          { st with
            bufferTrace := st.bufferTrace ++
              [BufCall.mk false
                (env.buffer tgt.keyspace tgt.shard st.err st.bufferTrace.length).1],
            bufferedOnce :=
              (env.buffer tgt.keyspace tgt.shard st.err st.bufferTrace.length).1 } := by
        simp [bufferStep, hb, hb0, hitx, hmt, StepOut.state]
      rw [hres]
      refine ⟨?_, ?_, ?_⟩
      · intro e he
        rcases List.mem_append.mp he with he | he
        · exact h1 e he
        · rw [List.mem_singleton] at he
          subst he
          rfl
      · intro hbo e he
        rcases List.mem_append.mp he with he | he
        · exact h2 hb0 e he
        · rw [List.mem_singleton] at he
          subst he
          exact hbo
      · rw [List.dropLast_concat]
        exact h2 hb0
    | some be =>
      have hres : (bufferStep env tgt itx st).state =
          { st with
            err := some (.vtError be.code bufferFailMsg),
            bufferTrace := st.bufferTrace ++ [BufCall.mk false false] } := by
        simp [bufferStep, hb, hb0, hitx, hmt, StepOut.state]
      rw [hres]
      refine ⟨?_, ?_, ?_⟩
      · intro e he
        rcases List.mem_append.mp he with he | he
        · exact h1 e he
        · rw [List.mem_singleton] at he
          subst he
          rfl
      · intro _ e he
        rcases List.mem_append.mp he with he | he
        · exact h2 hb0 e he
        · rw [List.mem_singleton] at he
          subst he
          rfl
      · rw [List.dropLast_concat]
        exact h2 hb0
  · have hres : (bufferStep env tgt itx st).state = st := by
      simp [bufferStep, hg, StepOut.state]
    rw [hres]
    exact ⟨h1, h2, h3⟩

/-- Transport of the buffer invariant along states with equal buffer
fields. -/
theorem bufInv_of_eq {st st' : LoopState} (ht : st'.bufferTrace = st.bufferTrace)
    (hb : st'.bufferedOnce = st.bufferedOnce) (h : BufInv st) : BufInv st' := by
  obtain ⟨h1, h2, h3⟩ := h
  refine ⟨?_, ?_, ?_⟩
  · rw [ht]; exact h1
  · rw [hb, ht]; exact h2
  · rw [ht]; exact h3

/-- One loop iteration invokes the action at most once. -/
theorem withRetryStep_innerCalls (env : Env) (tgt : Target) (itx : Bool)
    (i : Nat) (st : LoopState) :
    (withRetryStep env tgt itx i st).state.innerCalls ≤ st.innerCalls + 1 := by
  unfold withRetryStep
  cases hbs : bufferStep env tgt itx st with
  | brk st1 =>
    have h := (bufferStep_frame env tgt itx st).1
    rw [hbs] at h
    simp only [StepOut.state] at h
    show st1.innerCalls ≤ st.innerCalls + 1
    omega
  | cont st1 =>
    have h := (bufferStep_frame env tgt itx st).1
    rw [hbs] at h
    simp only [StepOut.state] at h
    have h2 := (selectStep_frame env tgt i st1).2.2
    show (selectStep env tgt i st1).state.innerCalls ≤ st.innerCalls + 1
    omega

/-- One loop iteration preserves the buffer bookkeeping invariant. -/
theorem withRetryStep_bufInv (env : Env) (tgt : Target) (itx : Bool)
    (i : Nat) (st : LoopState) (h : BufInv st) :
    BufInv (withRetryStep env tgt itx i st).state := by
  unfold withRetryStep
  cases hbs : bufferStep env tgt itx st with
  | brk st1 =>
    have hbi := bufferStep_bufInv env tgt itx st h
    rw [hbs] at hbi
    exact hbi
  | cont st1 =>
    have hbi := bufferStep_bufInv env tgt itx st h
    rw [hbs] at hbi
    obtain ⟨hft, hfb, _⟩ := selectStep_frame env tgt i st1
    exact bufInv_of_eq hft hfb hbi

/-- In a transaction or for a non-MASTER target, one loop iteration leaves
the buffer trace unchanged. -/
theorem withRetryStep_guard_off (env : Env) (tgt : Target) (itx : Bool)
    (i : Nat) (st : LoopState) (h : itx = true ∨ tgt.tabletType ≠ .MASTER) :
    (withRetryStep env tgt itx i st).state.bufferTrace = st.bufferTrace := by
  unfold withRetryStep
  rw [bufferStep_guard_off env tgt itx st h]
  show (selectStep env tgt i st).state.bufferTrace = st.bufferTrace
  exact (selectStep_frame env tgt i st).1

/-- The retry loop with `left` remaining iterations invokes the action at
most `left` more times. -/
theorem withRetryLoop_innerCalls (env : Env) (tgt : Target) (itx : Bool) :
    ∀ left i st, (withRetryLoop env tgt itx i left st).innerCalls
      ≤ st.innerCalls + left := by
  intro left
  induction left with
  | zero => intro i st; simp [withRetryLoop]
  | succ left ih =>
    intro i st
    unfold withRetryLoop
    cases hs : withRetryStep env tgt itx i st with
    | brk st1 =>
      have h := withRetryStep_innerCalls env tgt itx i st
      rw [hs] at h
      simp only [StepOut.state] at h
      show st1.innerCalls ≤ st.innerCalls + (left+1)
      omega
    | cont st1 =>
      have h := withRetryStep_innerCalls env tgt itx i st
      rw [hs] at h
      simp only [StepOut.state] at h
      have h2 := ih (i+1) st1
      show (withRetryLoop env tgt itx (i+1) left st1).innerCalls
        ≤ st.innerCalls + (left+1)
      omega

/-- The retry loop preserves the buffer bookkeeping invariant. -/
theorem withRetryLoop_bufInv (env : Env) (tgt : Target) (itx : Bool) :
    ∀ left i st, BufInv st → BufInv (withRetryLoop env tgt itx i left st) := by
  intro left
  induction left with
  | zero => intro i st h; exact h
  | succ left ih =>
    intro i st h
    unfold withRetryLoop
    cases hs : withRetryStep env tgt itx i st with
    | brk st1 =>
      have hbi := withRetryStep_bufInv env tgt itx i st h
      rw [hs] at hbi
      exact hbi
    | cont st1 =>
      have hbi := withRetryStep_bufInv env tgt itx i st h
      rw [hs] at hbi
      exact ih (i+1) st1 hbi

/-- In a transaction or for a non-MASTER target, the retry loop leaves the
buffer trace unchanged. -/
theorem withRetryLoop_guard_off (env : Env) (tgt : Target) (itx : Bool)
    (h : itx = true ∨ tgt.tabletType ≠ .MASTER) :
    ∀ left i st, (withRetryLoop env tgt itx i left st).bufferTrace
      = st.bufferTrace := by
  intro left
  induction left with
  | zero => intro i st; rfl
  | succ left ih =>
    intro i st
    unfold withRetryLoop
    cases hs : withRetryStep env tgt itx i st with
    | brk st1 =>
      have ht := withRetryStep_guard_off env tgt itx i st h
      rw [hs] at ht
      exact ht
    | cont st1 =>
      have ht := withRetryStep_guard_off env tgt itx i st h
      rw [hs] at ht
      simp only [StepOut.state] at ht
      rw [ih (i+1) st1, ht]

/-- C1: For every call to the gateway's execute/withRetry with a given
target and action, the action is invoked at most `retry_count + 1` times;
in particular, when `retry_count = 0` the action is invoked at most once,
so a retryable error is never retried within that call. -/
theorem withRetry_attempts_bounded (env : Env) (target : Target)
    (inTransaction : Bool) :
    (withRetry env target inTransaction).innerCalls ≤ env.retryCount + 1 ∧
    (env.retryCount = 0 → (withRetry env target inTransaction).innerCalls ≤ 1) := by
  unfold withRetry
  split
  · exact ⟨Nat.zero_le _, fun _ => Nat.zero_le _⟩
  · refine ⟨?_, ?_⟩
    · have h := withRetryLoop_innerCalls env target inTransaction
        (env.retryCount+1) 0 initState
      simpa [initState] using h
    · intro h0
      have h := withRetryLoop_innerCalls env target inTransaction
        (env.retryCount+1) 0 initState
      rw [h0] at h ⊢
      simpa [initState] using h

/-- Witness for `withRetry_attempts_bounded`: with `retry_count = 0` and an
always-retryable action over three tablets, at most one invocation. -/
theorem withRetry_attempts_bounded_witness :
    envRetry0.retryCount = 0 ∧ (withRetry envRetry0 tgtR false).innerCalls ≤ 1 :=
  ⟨rfl, (withRetry_attempts_bounded envRetry0 tgtR false).2 rfl⟩

/-- C2: Within a single withRetry/execute call, `WaitForFailoverEnd` is
invoked only when the target role is MASTER, the request is not in a
transaction, and the request has not yet been buffered (`bufferedOnceAt`
is false at every recorded call); once `buffered_once` is set after a
successful buffering, the buffer is never re-entered for the remainder of
the call (an entry with a retryDone handle can only be the last one). -/
theorem withRetry_buffered_once (env : Env) (target : Target)
    (inTransaction : Bool) :
    ((inTransaction = true ∨ target.tabletType ≠ .MASTER) →
      (withRetry env target inTransaction).bufferTrace = []) ∧
    (∀ e ∈ (withRetry env target inTransaction).bufferTrace,
      e.bufferedOnceAt = false) ∧
    (∀ e ∈ (withRetry env target inTransaction).bufferTrace.dropLast,
      e.retryDone = false) := by
  unfold withRetry
  split
  · refine ⟨fun _ => rfl, ?_, ?_⟩ <;> intro e he <;> simp at he
  · have hinv : BufInv initState := by
      refine ⟨?_, ?_, ?_⟩ <;> simp [initState]
    have h := withRetryLoop_bufInv env target inTransaction
      (env.retryCount+1) 0 initState hinv
    obtain ⟨h1, h2, h3⟩ := h
    refine ⟨?_, ?_, ?_⟩
    · intro hoff
      have := withRetryLoop_guard_off env target inTransaction hoff
        (env.retryCount+1) 0 initState
      simpa [initState] using this
    · exact h1
    · exact h3

/-- Witness for `withRetry_buffered_once`: a REPLICA call records no buffer
interaction, and the one buffer call of a buffered MASTER scenario was made
with `bufferedOnce = false`. -/
theorem withRetry_buffered_once_witness :
    (withRetry envBufOnce tgtR false).bufferTrace = [] ∧
    (BufCall.mk false true).bufferedOnceAt = false :=
  ⟨(withRetry_buffered_once envBufOnce tgtR false).1 (Or.inr (by decide)),
   (withRetry_buffered_once envBufOnce tgtM false).2.1 (BufCall.mk false true)
     (by decide)⟩

/-- If the very first iteration breaks, `withRetry` returns that
iteration's state (wrapped by `NewShardError`). -/
theorem withRetry_of_brk (env : Env) (target : Target) (itx : Bool)
    (st1 : LoopState)
    (hcond : (!env.allowedTabletTypes.isEmpty
        && !(env.allowedTabletTypes.contains target.tabletType)) = false)
    (hstep : withRetryStep env target itx 0 initState = .brk st1) :
    withRetry env target itx =
      ⟨NewShardError st1.err target, st1.innerCalls, st1.innerKeys,
       st1.cacheCalls, st1.bufferTrace⟩ := by
  unfold withRetry
  rw [if_neg (show ¬((!env.allowedTabletTypes.isEmpty
      && !(env.allowedTabletTypes.contains target.tabletType)) = true) by
    rw [hcond]; decide)]
  have hloop : withRetryLoop env target itx 0 (env.retryCount + 1) initState
      = st1 := by
    simp [withRetryLoop, hstep]
  rw [hloop]

/-- C3 counterexample: with the healthy-tablet snapshot empty for the
MASTER target but the failover buffer failing admission first, `withRetry`
returns the buffering error (code RESOURCE_EXHAUSTED), not an UNAVAILABLE
error, with zero action invocations. -/
theorem withRetry_empty_cache_not_unavailable_cex :
    envBufFull.getHealthy "ks" "0" TabletType.MASTER = [] ∧
    (withRetry envBufFull tgtM false).innerCalls = 0 ∧
    (withRetry envBufFull tgtM false).result.map Err.code ≠ some Code.UNAVAILABLE := by
  refine ⟨rfl, rfl, ?_⟩
  decide

/-- C3 amended: for a target admitted by the allowed-tablet-types check,
if the healthy snapshot (after the optional READ_ONLY union) is empty, a
`withRetry` call invokes the action zero times and returns either the
UNAVAILABLE no-healthy-tablet error or, when the failover buffer fails
first, the buffering error with the buffer's own code — both wrapped with
the target metadata. -/
theorem withRetry_empty_cache_no_action (env : Env) (target : Target)
    (inTransaction : Bool)
    (h0 : (!env.allowedTabletTypes.isEmpty
        && !(env.allowedTabletTypes.contains target.tabletType)) = false)
    (h1 : env.getHealthy target.keyspace target.shard target.tabletType = [])
    (h2 : env.routeReplicaToRdonly = true → target.tabletType = .REPLICA →
      env.getHealthy target.keyspace target.shard .RDONLY = []) :
    (withRetry env target inTransaction).innerCalls = 0 ∧
    ((withRetry env target inTransaction).result
        = some (.shardError target (.vtError .UNAVAILABLE noHealthyMsg)) ∨
      ∃ c, (withRetry env target inTransaction).result
        = some (.shardError target (.vtError c bufferFailMsg))) := by
  have hcand : candidateTablets env target = [] := by
    simp only [candidateTablets]
    by_cases hf : (env.routeReplicaToRdonly && (target.tabletType == .REPLICA)) = true
    · simp only [Bool.and_eq_true] at hf
      rw [if_pos (by simp [hf.1, hf.2]), h1, h2 hf.1 (beq_iff_eq.mp hf.2)]
      rfl
    · rw [if_neg hf]
      exact h1
  cases inTransaction with
  | false =>
    by_cases hM : target.tabletType = .MASTER
    · cases hb : (env.buffer target.keyspace target.shard none 0).2 with
      | some be =>
        have hstep : withRetryStep env target false 0 initState =
            .brk { err := some (.vtError be.code bufferFailMsg), invalid := [],
                   bufferedOnce := false, innerCalls := 0, innerKeys := [],
                   cacheCalls := 0, bufferTrace := [BufCall.mk false false] } := by
          simp [withRetryStep, bufferStep, hM, hb, initState]
        rw [withRetry_of_brk env target false _ h0 hstep]
        exact ⟨rfl, Or.inr ⟨be.code, rfl⟩⟩
      | none =>
        have hstep : withRetryStep env target false 0 initState =
            .brk { err := some (.vtError .UNAVAILABLE noHealthyMsg), invalid := [],
                   bufferedOnce := (env.buffer target.keyspace target.shard none 0).1,
                   innerCalls := 0, innerKeys := [],
                   cacheCalls := cacheLookups env target,
                   bufferTrace := [BufCall.mk false
                     ((env.buffer target.keyspace target.shard none 0).1)] } := by
          simp [withRetryStep, bufferStep, selectStep, hM, hb, hcand, initState]
        rw [withRetry_of_brk env target false _ h0 hstep]
        exact ⟨rfl, Or.inl rfl⟩
    · have hstep : withRetryStep env target false 0 initState =
          .brk { err := some (.vtError .UNAVAILABLE noHealthyMsg), invalid := [],
                 bufferedOnce := false, innerCalls := 0, innerKeys := [],
                 cacheCalls := cacheLookups env target, bufferTrace := [] } := by
        simp [withRetryStep, bufferStep, selectStep, hM, hcand, initState]
      rw [withRetry_of_brk env target false _ h0 hstep]
      exact ⟨rfl, Or.inl rfl⟩
  | true =>
    have hstep : withRetryStep env target true 0 initState =
        .brk { err := some (.vtError .UNAVAILABLE noHealthyMsg), invalid := [],
               bufferedOnce := false, innerCalls := 0, innerKeys := [],
               cacheCalls := cacheLookups env target, bufferTrace := [] } := by
      simp [withRetryStep, bufferStep, selectStep, hcand, initState]
    rw [withRetry_of_brk env target true _ h0 hstep]
    exact ⟨rfl, Or.inl rfl⟩

/-- Witness for `withRetry_empty_cache_no_action`: concrete REPLICA call
with an empty cache. -/
theorem withRetry_empty_cache_no_action_witness :
    (withRetry envBufFull tgtR false).innerCalls = 0 ∧
    ((withRetry envBufFull tgtR false).result
        = some (.shardError tgtR (.vtError .UNAVAILABLE noHealthyMsg)) ∨
      ∃ c, (withRetry envBufFull tgtR false).result
        = some (.shardError tgtR (.vtError c bufferFailMsg))) :=
  withRetry_empty_cache_no_action envBufFull tgtR false (by decide) (by decide)
    (by decide)

/-- C4 counterexample: `retry_count = 2`, three distinct healthy tablets,
and an action reporting retryable with an INTERNAL error three times: the
call returns the action's last error (INTERNAL) wrapped with the target
metadata, not an UNAVAILABLE error. -/
theorem withRetry_exhaustion_not_unavailable_cex :
    (withRetry (envRetry3 (.vtError .INTERNAL "boom")) tgtR false).result
      = some (.shardError tgtR (.vtError .INTERNAL "boom")) ∧
    (withRetry (envRetry3 (.vtError .INTERNAL "boom")) tgtR false).innerCalls = 3 ∧
    (withRetry (envRetry3 (.vtError .INTERNAL "boom")) tgtR false).result.map
      Err.code ≠ some Code.UNAVAILABLE := by
  refine ⟨?_, ?_, ?_⟩ <;> decide

/-- C4 amended: in the exhaustion scenario (`retry_count = 2`, the action
reports retryable with error `e` on three distinct tablets), the call
invokes the action exactly three times and fails with the action's last
reported error wrapped with the target metadata (keyspace, shard, role);
an UNAVAILABLE error is not substituted for it ("do not override error from
last attempt"). -/
theorem withRetry_exhaustion_returns_last_error (e : Err) :
    (withRetry (envRetry3 e) tgtR false).result = some (.shardError tgtR e) ∧
    (withRetry (envRetry3 e) tgtR false).innerCalls = 3 := ⟨rfl, rfl⟩

/-- C6: with the replica-routes-to-readonly flag enabled and a REPLICA
target, the candidate set of each attempt is the union of the healthy
REPLICA and the healthy READ_ONLY tablets of the target's keyspace and
shard; and in the concrete scenario with zero healthy REPLICAs and two
healthy READ_ONLY tablets, the call succeeds by selecting one of the
READ_ONLY tablets. -/
theorem withRetry_replica_routes_rdonly :
    (∀ (env : Env) (target : Target), env.routeReplicaToRdonly = true →
      target.tabletType = .REPLICA →
      candidateTablets env target
        = env.getHealthy target.keyspace target.shard .REPLICA
          ++ env.getHealthy target.keyspace target.shard .RDONLY) ∧
    ((withRetry envRdonly tgtR false).result = none ∧
      ∃ k, (withRetry envRdonly tgtR false).innerKeys = [k]
        ∧ (k = "r1" ∨ k = "r2")) := by
  constructor
  · intro env target hf ht
    simp [candidateTablets, hf, ht]
  · exact ⟨by decide, ⟨"r2", by decide, Or.inr rfl⟩⟩

/-- Witness for `withRetry_replica_routes_rdonly`: the concrete candidate
set is the union of the (empty) REPLICA snapshot and the RDONLY snapshot. -/
theorem withRetry_replica_routes_rdonly_witness :
    candidateTablets envRdonly tgtR
      = envRdonly.getHealthy "ks" "0" .REPLICA
        ++ envRdonly.getHealthy "ks" "0" .RDONLY :=
  withRetry_replica_routes_rdonly.1 envRdonly tgtR rfl rfl

/-- C7: if the allowed tablet types list is non-empty and does not contain
the target's type, `withRetry` returns a FAILED_PRECONDITION error (not
wrapped) with no side effects — no buffer call, no cache lookup, no action
invocation; with an empty list the check never fails. -/
theorem withRetry_allowed_types :
    (∀ (env : Env) (target : Target) (itx : Bool),
      env.allowedTabletTypes ≠ [] →
      env.allowedTabletTypes.contains target.tabletType = false →
      withRetry env target itx
        = ⟨some (.vtError .FAILED_PRECONDITION allowedTypesMsg), 0, [], 0, []⟩) ∧
    (∀ (env : Env) (target : Target) (itx : Bool),
      env.allowedTabletTypes = [] →
      (withRetry env target itx).result
        ≠ some (.vtError .FAILED_PRECONDITION allowedTypesMsg)) := by
  constructor
  · intro env target itx hne hc
    have hisE : env.allowedTabletTypes.isEmpty = false := by
      cases hE : env.allowedTabletTypes
      · exact absurd hE hne
      · rfl
    unfold withRetry
    rw [if_pos (by rw [hisE, hc]; decide)]
  · intro env target itx hE
    unfold withRetry
    rw [if_neg (by rw [hE]; simp)]
    cases hserr : (withRetryLoop env target itx 0 (env.retryCount + 1)
        initState).err with
    | none => simp [NewShardError, hserr]
    | some e2 => simp [NewShardError, hserr]

/-- Witness for `withRetry_allowed_types`: with only MASTER allowed, a
REPLICA call fails the precondition with zero side effects. -/
theorem withRetry_allowed_types_witness :
    withRetry envAllowedM tgtR false
      = ⟨some (.vtError .FAILED_PRECONDITION allowedTypesMsg), 0, [], 0, []⟩ :=
  withRetry_allowed_types.1 envAllowedM tgtR false (by decide) (by decide)

/-- C8 counterexample: with both `tablet_filters` and `keyspaces_to_watch`
non-empty but no non-empty cell in `cells_to_watch` (the empty flag value
splits to `[""]`), `NewDiscoveryGateway` returns a gateway instead of
terminating fatally (the mutual-exclusion check sits inside the per-cell
loop). -/
theorem newDiscoveryGateway_both_filters_no_cells_cex :
    NewDiscoveryGateway true [""] ["ks1|0"] ["ks2"] true = .ok := by decide

/-- C8 amended: specifying both `tablet_filters` and `keyspaces_to_watch`
as non-empty is fatal provided `cells_to_watch` contains at least one
non-empty cell: construction then terminates with the mutual-exclusion
fatal error instead of returning a gateway. -/
theorem newDiscoveryGateway_both_filters_fatal (cells : List String)
    (tabletFilters keyspacesToWatch : List String) (parseOk : Bool)
    (hf : tabletFilters ≠ []) (hk : keyspacesToWatch ≠ [])
    (hc : ∃ c ∈ cells, c ≠ "") :
    NewDiscoveryGateway true cells tabletFilters keyspacesToWatch parseOk
      = .fatal bothFiltersMsg := by
  have hfi : tabletFilters.isEmpty = false := by
    cases hE : tabletFilters
    · exact absurd hE hf
    · rfl
  have hki : keyspacesToWatch.isEmpty = false := by
    cases hE : keyspacesToWatch
    · exact absurd hE hk
    · rfl
  show watchCells tabletFilters keyspacesToWatch parseOk cells
    = .fatal bothFiltersMsg
  have main : ∀ l : List String, (∃ c ∈ l, c ≠ "") →
      watchCells tabletFilters keyspacesToWatch parseOk l
        = .fatal bothFiltersMsg := by
    intro l
    induction l with
    | nil => intro h; simp at h
    | cons c rest ih =>
      intro h
      by_cases hcc : c = ""
      · subst hcc
        have hstep : watchCells tabletFilters keyspacesToWatch parseOk
            ("" :: rest) = watchCells tabletFilters keyspacesToWatch parseOk
            rest := by
          simp [watchCells]
        rw [hstep]
        apply ih
        rcases h with ⟨x, hx, hne⟩
        rcases List.mem_cons.mp hx with hx | hx
        · exact absurd hx hne
        · exact ⟨x, hx, hne⟩
      · simp [watchCells, hcc, hfi, hki]
  exact main _ hc

/-- Witness for `newDiscoveryGateway_both_filters_fatal`: one non-empty
cell, both filters non-empty. -/
theorem newDiscoveryGateway_both_filters_fatal_witness :
    NewDiscoveryGateway true ["cell1"] ["ks1|0"] ["ks2"] true
      = .fatal bothFiltersMsg :=
  newDiscoveryGateway_both_filters_fatal ["cell1"] ["ks1|0"] ["ks2"] true
    (by decide) (by decide) ⟨"cell1", by decide, by decide⟩

/-- C9: every health update is forwarded to the tablet stats cache, and to
the failover buffer exactly when the update's target tablet type is MASTER;
non-MASTER updates leave the buffer untouched. -/
theorem statsUpdate_forwarding (g : GatewayListeners) (ts : LegacyTabletStats) :
    (StatsUpdate g ts).tscUpdates = g.tscUpdates ++ [ts] ∧
    (StatsUpdate g ts).bufferUpdates =
      (if ts.target.tabletType = .MASTER then g.bufferUpdates ++ [ts]
       else g.bufferUpdates) := by
  unfold StatsUpdate
  by_cases h : ts.target.tabletType = .MASTER
  · simp [h]
  · simp [h]

/-- C10: `WaitForTablets` with an empty list of tablet types returns nil
immediately, with zero topology queries and zero stats-cache waits. -/
theorem waitForTablets_empty_types (env : WFTEnv) :
    WaitForTablets env [] = ⟨none, 0, 0⟩ := rfl
